/-
  Verification of the plan-state machine and step orchestration of the
  ai-chatbot repository: agent state persistence (state.ts), the state
  context formatter and its truncation policy, the step completion
  tracker, the loop orchestrator (prepareStep) and stop policy
  (agent.ts), and the plan generator (planning.ts).

  The TypeScript source is shallowly embedded: database state for one
  conversation is an explicit Option AgentState value, fallible
  operations return Option, and the external structured-generation call
  is a parameter.
-/
import Mathlib

set_option maxRecDepth 20000

namespace Chatbot

/-! ## Data model (lib/db/schema: AgentState table, plan/step JSON shapes) -/

/-- Status of a single plan step (PlanStep.status: "pending" | "done"). -/
inductive StepStatus
  | pending
  | done
deriving Repr, DecidableEq

/-- One step of an execution plan (PlanStep in the schema). -/
structure PlanStep where
  id : String
  description : String
  tool : Option String := none
  status : StepStatus
  result : Option String := none
deriving Repr, DecidableEq

/-- An execution plan (AgentPlan in the schema). -/
structure AgentPlan where
  goal : String
  steps : List PlanStep
  reasoning : String
deriving Repr, DecidableEq

/-- Append-only log entry recorded when a plan step is completed. -/
structure CompletedStep where
  stepId : String
  description : String
  result : String
  timestamp : String
deriving Repr, DecidableEq

/-- AgentState.status: "idle" | "planning" | "executing" | "completed". -/
inductive AgentStatus
  | idle
  | planning
  | executing
  | completed
deriving Repr, DecidableEq

/-- A JSON-serializable context value: either a JS string or any
non-string value, carried together with its JSON.stringify rendering. -/
inductive JVal
  | str (s : String)
  | nonstr (serialized : String)
deriving Repr, DecidableEq

/-- How formatStateContext renders a context value:
typeof value === "string" ? value : JSON.stringify(value). -/
def JVal.render : JVal → String
  | .str s => s
  | .nonstr serialized => serialized

/-- The accumulated-findings object: ordered key/value entries, as a JS
object (keys unique, insertion ordered). -/
abbrev AgentContext := List (String × JVal)

/-- The per-conversation durable agent state row. Nullable DB columns
(plan, currentStepIndex, completedSteps, context) are Options; the
source reads them with ?? defaults. -/
structure AgentState where
  status : AgentStatus
  plan : Option AgentPlan := none
  currentStepIndex : Option Nat := some 0
  completedSteps : Option (List CompletedStep) := some []
  context : Option AgentContext := some []
deriving Repr, DecidableEq

/-! ## Generic helpers mirroring JS primitives -/

/-- Map with the element index, starting the index at i
(Array.prototype.map / forEach callback index, offset by i). -/
def mapWithIdxFrom (f : Nat → α → β) : Nat → List α → List β
  | _, [] => []
  | i, a :: as => f i a :: mapWithIdxFrom f (i + 1) as

/-- JS Array.prototype.join("\n"). -/
def joinLines : List String → String
  | [] => ""
  | [p] => p
  | p :: rest => p ++ "\n" ++ joinLines rest

/-- JS Array.prototype.join(", "). -/
def joinComma : List String → String
  | [] => ""
  | [p] => p
  | p :: rest => p ++ ", " ++ joinComma rest

/-- JS String.prototype.slice(-n) for n > 0: the last min(n, length)
characters of the string. -/
def jsSliceFromEnd (s : String) (n : Nat) : String :=
  List.asString (s.data.drop (s.data.length - n))

/-- JS object spread { ...ctx, [key]: value }: replace the value if the
key is present (keeping its position), otherwise append the new entry. -/
def objInsert (ctx : AgentContext) (key : String) (value : JVal) : AgentContext :=
  if ctx.any (fun e => e.1 = key) then
    ctx.map (fun e => if e.1 = key then (key, value) else e)
  else
    ctx ++ [(key, value)]

/-- JS object property lookup on the entry list. -/
def ctxGet : AgentContext → String → Option JVal
  | [], _ => none
  | e :: rest, k => if e.1 = k then some e.2 else ctxGet rest k

/-- Decidable substring test on character lists (JS String.includes). -/
def infixOfB : List Char → List Char → Bool
  | needle, [] => needle.isEmpty
  | needle, c :: t => needle.isPrefixOf (c :: t) || infixOfB needle t

/-- JS String.prototype.includes(sub). -/
def jsIncludes (s sub : String) : Bool :=
  infixOfB sub.data s.data

/-- The string pre is a prefix of s (character-wise). -/
def strPrefixOf (pre s : String) : Prop := pre.data <+: s.data

/-- The string suf is a suffix of s (character-wise). -/
def strSuffixOf (suf s : String) : Prop := suf.data <:+ s.data

/-! ## state.ts: formatter, truncation, context and step tracking -/

/-- Max chars for accumulated context (MAX_CONTEXT_CHARS in state.ts). -/
def MAX_CONTEXT_CHARS : Nat := 16000

/-- The derived status marker of a plan step at index idx given the
current cursor. -/
def statusMarker (idx currentIdx : Nat) : String :=
  if idx < currentIdx then "[DONE]"
  else if idx = currentIdx then "[IN PROGRESS]"
  else "[PENDING]"

/-- One rendered plan-step line of formatStateContext. The result
suffix is appended only when step.result is truthy (non-empty) and the
step is before the cursor. -/
def renderStepLine (currentIdx : Nat) (idx : Nat) (st : PlanStep) : String :=
  let marker := statusMarker idx currentIdx
  let resultSuffix :=
    match st.result with
    | some r => if 0 < r.length && decide (idx < currentIdx) then " - Result: " ++ r else ""
    | none => ""
  "    " ++ toString (idx + 1) ++ ". " ++ marker ++ " " ++ st.description ++ resultSuffix

/-- The parts array pushed by formatStateContext before joining. -/
def buildParts (state : AgentState) : List String :=
  ["<agent_state>"]
  ++ (match state.plan with
      | none => []
      | some plan =>
        ["  <current_plan>", "    Goal: " ++ plan.goal, "    Steps:"]
        ++ mapWithIdxFrom (renderStepLine (state.currentStepIndex.getD 0)) 0 plan.steps
        ++ ["  </current_plan>"])
  ++ (let ctx := state.context.getD []
      if ctx.length > 0 then
        ["  <accumulated_context>"]
        ++ ctx.map (fun e => "    " ++ e.1 ++ ": " ++ JVal.render e.2)
        ++ ["  </accumulated_context>"]
      else [])
  ++ (let cs := state.completedSteps.getD []
      if cs.length > 0 then
        ["  <completed_steps>"]
        ++ cs.map (fun c => "    - " ++ c.description ++ ": " ++ c.result)
        ++ ["  </completed_steps>"]
      else [])
  ++ ["</agent_state>"]

/-- The fully rendered (pre-truncation) text: parts.join("\n"). -/
def formatStateFull (state : AgentState) : String :=
  joinLines (buildParts state)

/-- truncateContext from state.ts: keeps the structural tags, inserts a
truncation marker, and retains the tail of the over-long text
(context.slice(-availableChars)). -/
def truncateContext (context : String) (maxChars : Nat) : String :=
  if context.length ≤ maxChars then context
  else
    let header := "<agent_state>\n  [Context truncated due to length]\n"
    let footer := "\n</agent_state>"
    let availableChars := maxChars - header.length - footer.length
    let truncated := jsSliceFromEnd context availableChars
    header ++ truncated ++ footer

/-- formatStateContext from state.ts. -/
def formatStateContext (store : Option AgentState) : String :=
  match store with
  | none => ""
  | some state =>
    if state.status = .idle then ""
    else
      let formatted := formatStateFull state
      if formatted.length > MAX_CONTEXT_CHARS then
        truncateContext formatted MAX_CONTEXT_CHARS
      else formatted

/-- addToContext from state.ts, acting on the conversation's stored row:
loads the state (none when the row is absent), merges {key: value} into
context via object spread and persists; returns the updated row. -/
def addToContext (store : Option AgentState) (key : String) (value : JVal) :
    Option AgentState :=
  match store with
  | none => none
  | some state =>
    let currentContext := state.context.getD []
    let updatedContext := objInsert currentContext key value
    some { state with context := some updatedContext }

/-- completeCurrentStep from state.ts: returns the updated row, or none
when the row is absent, the state has no plan, or the cursor is out of
range of plan.steps. The timestamp of the log entry is a parameter
(new Date().toISOString() at the call). -/
def completeCurrentStep (store : Option AgentState) (result ts : String) :
    Option AgentState :=
  match store with
  | none => none
  | some state =>
    match state.plan with
    | none => none
    | some plan =>
      let currentIdx := state.currentStepIndex.getD 0
      match plan.steps.get? currentIdx with
      | none => none
      | some currentStep =>
        let completedStep : CompletedStep :=
          { stepId := currentStep.id, description := currentStep.description,
            result := result, timestamp := ts }
        let completedSteps := (state.completedSteps.getD []) ++ [completedStep]
        let updatedPlan : AgentPlan :=
          { plan with
            steps := mapWithIdxFrom
              (fun idx st =>
                if idx = currentIdx then { st with status := .done, result := some result }
                else st) 0 plan.steps }
        let allComplete := plan.steps.length - 1 ≤ currentIdx
        let newStatus : AgentStatus := if allComplete then .completed else .executing
        some { state with
               plan := some updatedPlan,
               completedSteps := some completedSteps,
               currentStepIndex := some (currentIdx + 1),
               status := newStatus }

/-- The stored row after an operation that returned res: the database
update ran only when the operation did not bail out, so a none result
leaves the store unchanged. -/
def applyStore (store res : Option AgentState) : Option AgentState :=
  match res with
  | some s => some s
  | none => store

/-- The stored row after completeCurrentStep (no-ops persist nothing). -/
def completeCurrentStepStore (store : Option AgentState) (result ts : String) :
    Option AgentState :=
  applyStore store (completeCurrentStep store result ts)

/-! ## planning.ts: plan generation, fallback, trigger heuristic -/

/-- The tool-name enum of PlanStepSchema (z.enum([...])). -/
def planToolEnum : List String :=
  ["fetchUrl", "webSearch", "webExtract", "analyzeContent",
   "createDocument", "updateDocument", "finalAnswer"]

/-- The tools actually exported by lib/ai/tools (agentTools): the
declared tool vocabulary of the system. -/
def agentToolNames : List String :=
  ["webSearch", "fetchUrl", "analyzeContent", "finalAnswer"]

/-- A plan step as produced by the structured-generation call. -/
structure RawPlanStep where
  description : String
  tool : Option String := none
deriving Repr, DecidableEq

/-- The structured-generation output shape (PlanSchema). -/
structure RawPlanOutput where
  goal : String
  steps : List RawPlanStep
  reasoning : String
deriving Repr, DecidableEq

/-- Validation that generateObject performs against PlanSchema: between
1 and 7 steps, each tool either omitted or drawn from the schema enum.
Schema violations make generateObject throw. -/
def planSchemaValid (o : RawPlanOutput) : Bool :=
  decide (1 ≤ o.steps.length) && decide (o.steps.length ≤ 7) &&
  o.steps.all (fun st =>
    match st.tool with
    | none => true
    | some t => planToolEnum.contains t)

/-- convertToPlan from planning.ts: fresh ids (drawn from the supply),
descriptions and tools copied through, status pending. -/
def convertToPlan (output : RawPlanOutput) (ids : Nat → String) : AgentPlan :=
  { goal := output.goal,
    steps := mapWithIdxFrom
      (fun i st =>
        { id := ids i, description := st.description, tool := st.tool,
          status := .pending, result := none })
      0 output.steps,
    reasoning := output.reasoning }

/-- createFallbackPlan from planning.ts. -/
def createFallbackPlan (task : String) (ids : Nat → String) : AgentPlan :=
  { goal := task,
    steps :=
      [{ id := ids 0, description := "Analyze the request and gather information",
         tool := none, status := .pending, result := none },
       { id := ids 1, description := "Provide comprehensive response",
         tool := some "finalAnswer", status := .pending, result := none }],
    reasoning := "Fallback plan due to planning error" }

/-- createPlan from planning.ts. The external structured-generation call
is a parameter: .error models any thrown failure (timeout, network,
model refusal); .ok carries the raw model output, which generateObject
then validates against PlanSchema (throwing, hence falling back, when
invalid). -/
def createPlan (task : String) (genResult : Except String RawPlanOutput)
    (ids : Nat → String) : AgentPlan :=
  match genResult with
  | .error _ => createFallbackPlan task ids
  | .ok raw =>
    if planSchemaValid raw then convertToPlan raw ids
    else createFallbackPlan task ids

/-- The complexity-keyword list of shouldCreatePlan. -/
def complexIndicators : List String :=
  ["research", "analyze", "compare", "summarize", "find and", "search for",
   "look up", "multiple", "step", "then", "after that", "first", "finally"]

/-- shouldCreatePlan from planning.ts. -/
def shouldCreatePlan (task : String) : Bool :=
  if task.length < 50 then false
  else complexIndicators.any (fun indicator => jsIncludes task.toLower indicator)

/-! ## agent.ts: agent configuration and stop policy -/

/-- One finished round of the reasoning loop, as seen by stopWhen: the
names of the tools the round called. -/
structure LoopStep where
  toolCalls : List String
deriving Repr, DecidableEq

/-- Modelled from the spec: the AI SDK stop condition for the bounded
maximum number of rounds ("a bounded maximum number of rounds is
reached"); the SDK primitive stepCountIs is not part of this repository. -/
def stepCountIs (n : Nat) (steps : List LoopStep) : Bool :=
  decide (n ≤ steps.length)

/-- Modelled from the spec: the AI SDK stop condition for "any round
produces a call to the designated terminal action", evaluated after each
round on the round just finished; the SDK primitive hasToolCall is not
part of this repository. -/
def hasToolCall (name : String) (steps : List LoopStep) : Bool :=
  match steps.getLast? with
  | some st => st.toolCalls.contains name
  | none => false

/-- CreateAgentOptions of agent.ts, restricted to the fields the stop
policy depends on; the field defaults mirror the destructuring defaults
(isReasoningModel = false, maxSteps = 5). -/
structure CreateAgentOptions where
  isReasoningModel : Bool := false
  maxSteps : Nat := 5
deriving Repr, DecidableEq

/-- The observable configuration createAgent builds: whether tools are
offered, the toolChoice setting, and the stop condition. -/
structure AgentConfig where
  offersTools : Bool
  toolChoice : String
  stopWhen : List LoopStep → Bool

/-- createAgent from agent.ts: a reasoning model gets no tools,
toolChoice "none" and a pure round-count stop; otherwise tools are
offered and the loop stops on hasToolCall("finalAnswer") or on the
round-count bound, whichever is true first. -/
def createAgent (opts : CreateAgentOptions) : AgentConfig :=
  if opts.isReasoningModel then
    { offersTools := false, toolChoice := "none",
      stopWhen := stepCountIs opts.maxSteps }
  else
    { offersTools := true, toolChoice := "auto",
      stopWhen := fun event =>
        hasToolCall "finalAnswer" event || stepCountIs opts.maxSteps event }

/-- Modelled from the spec: the ToolLoopAgent driving loop (the loop
itself lives in the external ai package). Starting from the rounds
already finished, it runs one round at a time (the opaque reasoning
engine gen yields round number k), then evaluates stopWhen on the
finished rounds; it stops as soon as stopWhen is true. Fuel bounds the
recursion; none means the loop did not terminate within the fuel. -/
def runLoop (stop : List LoopStep → Bool) (gen : Nat → LoopStep) :
    Nat → List LoopStep → Option (List LoopStep)
  | 0, _ => none
  | fuel + 1, acc =>
    let acc2 := acc ++ [gen acc.length]
    if stop acc2 then some acc2 else runLoop stop gen fuel acc2

/-- A round calls the terminal action. -/
def roundFinal (st : LoopStep) : Bool :=
  st.toolCalls.contains "finalAnswer"

/-! ## The orchestrator prepareStep (part_000 variant of createAgent) -/

/-- One tool result of a finished round. result is the extracted
.result property: a string, a non-string value carried with its
JSON.stringify rendering, or absent (undefined/null); selfSerialized is
JSON.stringify of the whole toolResult object, used when .result is
absent. -/
structure ToolResult where
  toolName : String
  result : Option JVal := none
  selfSerialized : String := ""
deriving Repr, DecidableEq

/-- One finished round as prepareStep sees it: its tool results. -/
structure StepRound where
  toolResults : List ToolResult
deriving Repr, DecidableEq

/-- The summary prepareStep computes for one tool result: strings
truncated to 500 characters, anything else serialized then truncated. -/
def summarize (tr : ToolResult) : String :=
  match tr.result with
  | some (.str s) => s.take 500
  | some (.nonstr serialized) => serialized.take 500
  | none => tr.selfSerialized.take 500

/-- The context key prepareStep stores a tool result under:
step_${i + 1}_${toolResult.toolName}. -/
def ctxKey (i : Nat) (toolName : String) : String :=
  "step_" ++ toString (i + 1) ++ "_" ++ toolName

/-- The calls prepareStep makes against the state store while folding a
round's results into state. -/
inductive Event
  | addCtx (key : String) (value : String)
  | completeStep (result : String)
deriving Repr, DecidableEq

/-- Is this event a completeCurrentStep call? -/
def Event.isCompleteStep : Event → Bool
  | .completeStep _ => true
  | _ => false

/-- The addToContext call data of an event, if it is one. -/
def Event.addCtxInfo : Event → Option (String × String)
  | .addCtx k v => some (k, v)
  | _ => none

/-- The inner for-loop of prepareStep over one round's toolResults:
summarize each result and addToContext it under its round/tool key,
threading the stored row. Returns the calls made and the row after. -/
def recordResults (i : Nat) (trs : List ToolResult) (store : Option AgentState) :
    List Event × Option AgentState :=
  match trs with
  | [] => ([], store)
  | tr :: rest =>
    let key := ctxKey i tr.toolName
    let resultSummary := summarize tr
    let store2 := applyStore store (addToContext store key (JVal.str resultSummary))
    let (evs, store3) := recordResults i rest store2
    (Event.addCtx key resultSummary :: evs, store3)

/-- Processing of one newly finished round i by prepareStep: when the
round produced tool results, record each of them in context, then load
the state and, if it has a plan, call completeCurrentStep once with the
list of invoked tool names. -/
def processRound (i : Nat) (round : StepRound) (store : Option AgentState)
    (ts : String) : List Event × Option AgentState :=
  if round.toolResults.length > 0 then
    let (evs, store2) := recordResults i round.toolResults store
    match store2 with
    | some st =>
      if st.plan.isSome then
        let toolNames := joinComma (round.toolResults.map ToolResult.toolName)
        let msg := "Executed: " ++ toolNames
        (evs ++ [Event.completeStep msg],
         applyStore store2 (completeCurrentStep store2 msg ts))
      else (evs, store2)
    | none => (evs, store2)
  else ([], store)

/-- prepareStep's loop over the not-yet-processed rounds, i counting
from lastProcessedStepCount. -/
def processNewRounds (i : Nat) (rounds : List StepRound)
    (store : Option AgentState) (ts : String) : List Event × Option AgentState :=
  match rounds with
  | [] => ([], store)
  | r :: rest =>
    let (evs, store2) := processRound i r store ts
    let (evs2, store3) := processNewRounds (i + 1) rest store2 ts
    (evs ++ evs2, store3)

/-- The bookkeeping phase of prepareStep (part_000 createAgent): when
new rounds exist, fold each of them into state and advance
lastProcessedStepCount to the new round count. Returns the store calls
made, the new counter, and the row after. -/
def prepareStepFold (steps : List StepRound) (lastProcessedStepCount : Nat)
    (store : Option AgentState) (ts : String) :
    List Event × Nat × Option AgentState :=
  if steps.length > lastProcessedStepCount then
    let (evs, store2) := processNewRounds lastProcessedStepCount
      (steps.drop lastProcessedStepCount) store ts
    (evs, steps.length, store2)
  else ([], lastProcessedStepCount, store)

/-- The injection phase of prepareStep: reload the state; inject nothing
when it is absent or idle, or when the formatted context is empty;
otherwise inject the formatted context. -/
def injectPhase (store : Option AgentState) : Option String :=
  match store with
  | none => none
  | some state =>
    if state.status = .idle then none
    else
      let stateContext := formatStateContext (some state)
      if stateContext = "" then none else some stateContext

/-! ## Helper lemmas -/

theorem length_mapWithIdxFrom (f : Nat → α → β) (i : Nat) (l : List α) :
    (mapWithIdxFrom f i l).length = l.length := by
  induction l generalizing i with
  | nil => rfl
  | cons a as ih => simp [mapWithIdxFrom, ih]

theorem get?_mapWithIdxFrom (f : Nat → α → β) (i j : Nat) (l : List α) :
    (mapWithIdxFrom f i l).get? j = (l.get? j).map (f (i + j)) := by
  induction l generalizing i j with
  | nil => simp [mapWithIdxFrom]
  | cons a as ih =>
    cases j with
    | zero => simp [mapWithIdxFrom]
    | succ j =>
      have harith : i + 1 + j = i + (j + 1) := by omega
      simp only [mapWithIdxFrom, List.get?_cons_succ, ih (i + 1) j, harith]

theorem str_length_data (s : String) : s.length = s.data.length := rfl

theorem asString_data (l : List Char) : (List.asString l).data = l := rfl

theorem joinLines_cons (p : String) (l : List String) (h : l ≠ []) :
    joinLines (p :: l) = p ++ "\n" ++ joinLines l := by
  cases l with
  | nil => exact absurd rfl h
  | cons q t => rfl

theorem joinLines_cons_data (p : String) (l : List String) :
    ∃ rest : List Char, (joinLines (p :: l)).data = p.data ++ rest := by
  cases l with
  | nil => exact ⟨[], by simp [joinLines]⟩
  | cons q t =>
    refine ⟨("\n" : String).data ++ (joinLines (q :: t)).data, ?_⟩
    rw [joinLines_cons p _ (by simp), String.data_append, String.data_append,
      List.append_assoc]

theorem joinLines_concat_data (l : List String) (x : String) :
    ∃ pre : List Char, (joinLines (l ++ [x])).data = pre ++ x.data := by
  induction l with
  | nil => exact ⟨[], by simp [joinLines]⟩
  | cons p rest ih =>
    obtain ⟨pre, hpre⟩ := ih
    refine ⟨p.data ++ ("\n" : String).data ++ pre, ?_⟩
    rw [List.cons_append, joinLines_cons p _ (by simp), String.data_append,
      String.data_append, hpre]
    simp [List.append_assoc]

theorem buildParts_concat (s : AgentState) :
    ∃ l, buildParts s = l ++ ["</agent_state>"] := ⟨_, rfl⟩

theorem buildParts_head (s : AgentState) :
    ∃ t, buildParts s = "<agent_state>" :: t := ⟨_, rfl⟩

theorem formatStateFull_starts (s : AgentState) :
    ∃ rest : List Char,
      (formatStateFull s).data = ("<agent_state>" : String).data ++ rest := by
  obtain ⟨t, ht⟩ := buildParts_head s
  rw [formatStateFull, ht]
  exact joinLines_cons_data _ t

theorem formatStateFull_ends (s : AgentState) :
    ∃ pre : List Char,
      (formatStateFull s).data = pre ++ ("</agent_state>" : String).data := by
  obtain ⟨l, hl⟩ := buildParts_concat s
  rw [formatStateFull, hl]
  exact joinLines_concat_data l _

theorem jsSliceFromEnd_length (s : String) (n : Nat) (h : n ≤ s.length) :
    (jsSliceFromEnd s n).length = n := by
  have h2 : (jsSliceFromEnd s n).length = s.data.length - (s.data.length - n) := by
    rw [jsSliceFromEnd, str_length_data, asString_data, List.length_drop]
  rw [str_length_data] at h
  omega

theorem jsSliceFromEnd_suffix (s : String) (n : Nat) :
    (jsSliceFromEnd s n).data <:+ s.data := by
  rw [jsSliceFromEnd, asString_data]
  exact List.drop_suffix _ _

theorem ctxGet_map_self (ctx : AgentContext) (k : String) (v : JVal)
    (h : ∃ e ∈ ctx, e.1 = k) :
    ctxGet (ctx.map fun e => if e.1 = k then (k, v) else e) k = some v := by
  induction ctx with
  | nil => simp at h
  | cons e t ih =>
    by_cases he : e.1 = k
    · simp [ctxGet, he]
    · simp only [List.map_cons, if_neg he, ctxGet, he, if_false]
      apply ih
      rcases h with ⟨e2, he2, hk2⟩
      rcases List.mem_cons.mp he2 with rfl | hmem
      · exact absurd hk2 he
      · exact ⟨e2, hmem, hk2⟩

theorem ctxGet_append_self (ctx : AgentContext) (k : String) (v : JVal)
    (h : ∀ e ∈ ctx, e.1 ≠ k) :
    ctxGet (ctx ++ [(k, v)]) k = some v := by
  induction ctx with
  | nil => simp [ctxGet]
  | cons e t ih =>
    have he : e.1 ≠ k := h e (by simp)
    simp only [List.cons_append, ctxGet, he, if_false]
    exact ih (fun e2 hmem => h e2 (by simp [hmem]))

theorem ctxGet_objInsert_self (ctx : AgentContext) (k : String) (v : JVal) :
    ctxGet (objInsert ctx k v) k = some v := by
  rw [objInsert]
  by_cases h : ctx.any (fun e => e.1 = k)
  · rw [if_pos h]
    apply ctxGet_map_self
    rcases List.any_eq_true.mp h with ⟨e, hmem, he⟩
    exact ⟨e, hmem, of_decide_eq_true he⟩
  · rw [if_neg h]
    apply ctxGet_append_self
    intro e hmem he
    exact h (List.any_eq_true.mpr ⟨e, hmem, decide_eq_true he⟩)

theorem ctxGet_map_ne (ctx : AgentContext) (k k' : String) (v : JVal)
    (h : k' ≠ k) :
    ctxGet (ctx.map fun e => if e.1 = k then (k, v) else e) k' = ctxGet ctx k' := by
  induction ctx with
  | nil => rfl
  | cons e t ih =>
    by_cases he : e.1 = k
    · have h2 : ¬(k = k') := fun hk => h hk.symm
      have h3 : ¬(e.1 = k') := by rw [he]; exact h2
      simp [ctxGet, he, h2, h3, ih]
    · simp [ctxGet, he, ih]

theorem ctxGet_append_ne (ctx : AgentContext) (k k' : String) (v : JVal)
    (h : k' ≠ k) :
    ctxGet (ctx ++ [(k, v)]) k' = ctxGet ctx k' := by
  induction ctx with
  | nil =>
    have h2 : ¬(k = k') := fun hk => h hk.symm
    simp [ctxGet, h2]
  | cons e t ih =>
    by_cases he : e.1 = k'
    · simp [ctxGet, he]
    · simp [ctxGet, he, ih]

theorem ctxGet_objInsert_ne (ctx : AgentContext) (k k' : String) (v : JVal)
    (h : k' ≠ k) :
    ctxGet (objInsert ctx k v) k' = ctxGet ctx k' := by
  rw [objInsert]
  by_cases hany : ctx.any (fun e => e.1 = k)
  · rw [if_pos hany]; exact ctxGet_map_ne ctx k k' v h
  · rw [if_neg hany]; exact ctxGet_append_ne ctx k k' v h

theorem infixOfB_iff (n : List Char) (h : List Char) :
    infixOfB n h = true ↔ n <:+: h := by
  induction h with
  | nil =>
    simp only [infixOfB, List.isEmpty_iff]
    exact ⟨fun hn => by simp [hn], List.eq_nil_of_infix_nil⟩
  | cons c t ih =>
    simp only [infixOfB, Bool.or_eq_true, List.isPrefixOf_iff_prefix, ih]
    exact (List.infix_cons_iff).symm

theorem jsIncludes_iff (s sub : String) :
    jsIncludes s sub = true ↔ sub.data <:+: s.data :=
  infixOfB_iff sub.data s.data

/-! ## Claim C6: the plan trigger heuristic -/

/-- Claim C6, counterexample to the claim as stated: the claim asserts
shouldCreatePlan returns true for the task "research and summarize AI
trends", but that task is only 32 characters long — under the
50-character threshold — so the function returns false. -/
theorem shouldCreatePlan_scenarioA_cex :
    ("research and summarize AI trends" : String).length = 32 ∧
    shouldCreatePlan "research and summarize AI trends" = false := by
  exact ⟨by decide, by decide⟩

/-- Claim C6 (amended): shouldCreatePlan is a pure function that returns
false for every task shorter than 50 characters, and for every task of
length 50 or more returns true iff the lower-cased task contains at
least one of the fixed complexity keywords; in particular it returns
false for "hi" and also false for "research and summarize AI trends"
(32 characters, under the length threshold). -/
theorem shouldCreatePlan_spec (task : String) :
    (task.length < 50 → shouldCreatePlan task = false) ∧
    (50 ≤ task.length →
      (shouldCreatePlan task = true ↔
        ∃ kw ∈ complexIndicators, kw.data <:+: task.toLower.data)) ∧
    shouldCreatePlan "hi" = false ∧
    shouldCreatePlan "research and summarize AI trends" = false := by
  refine ⟨?_, ?_, by decide, by decide⟩
  · intro h
    simp [shouldCreatePlan, h]
  · intro h
    have h2 : ¬(task.length < 50) := by omega
    rw [shouldCreatePlan, if_neg h2]
    simp only [List.any_eq_true, jsIncludes_iff]

/-- Claim C6, witness: a 65-character task containing the keyword
"research" exercises the length-50 branch of the theorem. -/
theorem shouldCreatePlan_spec_w :
    50 ≤ ("please research the history of artificial intelligence in detail" : String).length ∧
    (shouldCreatePlan "please research the history of artificial intelligence in detail" = true ↔
      ∃ kw ∈ complexIndicators,
        kw.data <:+: ("please research the history of artificial intelligence in detail" : String).toLower.data) :=
  ⟨by decide,
   (shouldCreatePlan_spec "please research the history of artificial intelligence in detail").2.1
     (by decide)⟩

/-! ## Claim C9: addToContext last-write-wins -/

/-- Claim C9: addToContext returns absent (persisting nothing) when no
state exists; otherwise it merges the key/value pair into the state's
context with last-write-wins semantics per key: calling it twice with
the same key and different values leaves exactly the second value under
that key, leaves every other key unchanged, and touches no other field
of the state. -/
theorem addToContext_spec :
    (∀ k v, addToContext none k v = none) ∧
    (∀ (s : AgentState) (k : String) (v1 v2 : JVal),
      ∃ s1 s2,
        addToContext (some s) k v1 = some s1 ∧
        addToContext (some s1) k v2 = some s2 ∧
        ctxGet (s2.context.getD []) k = some v2 ∧
        (∀ k', k' ≠ k → ctxGet (s2.context.getD []) k' = ctxGet (s.context.getD []) k') ∧
        s2.plan = s.plan ∧ s2.status = s.status ∧
        s2.currentStepIndex = s.currentStepIndex ∧
        s2.completedSteps = s.completedSteps) := by
  refine ⟨fun k v => rfl, fun s k v1 v2 => ?_⟩
  refine ⟨_, _, rfl, rfl, ?_, ?_, rfl, rfl, rfl, rfl⟩
  · exact ctxGet_objInsert_self _ k v2
  · intro k' hk'
    show ctxGet (objInsert (objInsert (s.context.getD []) k v1) k v2) k' =
      ctxGet (s.context.getD []) k'
    exact (ctxGet_objInsert_ne _ k k' v2 hk').trans (ctxGet_objInsert_ne _ k k' v1 hk')

/-- A concrete state used to exercise addToContext. -/
def stateW : AgentState :=
  { status := .executing, plan := none, currentStepIndex := some 0,
    completedSteps := some [], context := some [("prior", JVal.str "x")] }

/-- Claim C9, witness: writing "note" twice on a concrete state keeps the
second value only and leaves the pre-existing key untouched. -/
theorem addToContext_spec_w :
    ("other" : String) ≠ "note" ∧
    addToContext (addToContext (some stateW) "note" (JVal.str "a")) "note" (JVal.str "b") =
      some { stateW with
             context := some [("prior", JVal.str "x"), ("note", JVal.str "b")] } := by
  have h := addToContext_spec.2 stateW "note" (JVal.str "a") (JVal.str "b")
  exact ⟨by decide, by decide⟩

/-! ## Claims C8, C10, C2: the state context formatter -/

/-- Claim C8: formatStateContext returns empty text whenever the state is
absent or its status is idle, regardless of the plan, context and
completed-step content it carries. -/
theorem formatStateContext_idle :
    formatStateContext none = "" ∧
    ∀ s : AgentState, s.status = .idle → formatStateContext (some s) = "" := by
  refine ⟨rfl, fun s h => ?_⟩
  simp [formatStateContext, h]

/-- An idle state loaded with a plan, accumulated context and a completed
step, to exercise the idle branch of the formatter. -/
def stateIdleFull : AgentState :=
  { status := .idle,
    plan := some
      { goal := "Research AI trends",
        steps := [{ id := "s1", description := "Search the web",
                    tool := some "webSearch", status := .pending, result := none }],
        reasoning := "needs search" },
    currentStepIndex := some 0,
    completedSteps := some [{ stepId := "s0", description := "warmup",
                              result := "ok", timestamp := "t0" }],
    context := some [("searchResults", JVal.str "five articles")] }

/-- Claim C8, witness: the formatter returns empty text on a concrete idle
state that carries a plan, context and completed steps. -/
theorem formatStateContext_idle_w :
    stateIdleFull.status = .idle ∧ formatStateContext (some stateIdleFull) = "" := by
  have h := formatStateContext_idle.2 stateIdleFull rfl
  exact ⟨rfl, h⟩

theorem truncHeader_length :
    ("<agent_state>\n  [Context truncated due to length]\n" : String).length = 50 := by
  decide

theorem truncFooter_length : ("\n</agent_state>" : String).length = 15 := by decide

theorem truncateContext_eq (context : String) (h : 16000 < context.length) :
    truncateContext context MAX_CONTEXT_CHARS =
      "<agent_state>\n  [Context truncated due to length]\n" ++
        jsSliceFromEnd context 15935 ++ "\n</agent_state>" := by
  rw [truncateContext]
  rw [if_neg (by rw [MAX_CONTEXT_CHARS]; omega)]
  norm_num [truncHeader_length, truncFooter_length, MAX_CONTEXT_CHARS]

theorem truncateContext_length (context : String) (h : 16000 < context.length) :
    (truncateContext context MAX_CONTEXT_CHARS).length = 16000 := by
  rw [truncateContext_eq context h, String.length_append, String.length_append,
    jsSliceFromEnd_length context 15935 (by omega), truncHeader_length,
    truncFooter_length]

theorem strPrefixOf_append (pre a b : String) (h : strPrefixOf pre a) :
    strPrefixOf pre (a ++ b) := by
  rw [strPrefixOf, String.data_append]
  exact h.trans (List.prefix_append _ _)

theorem strSuffixOf_append (suf a b : String) (h : strSuffixOf suf b) :
    strSuffixOf suf (a ++ b) := by
  rw [strSuffixOf, String.data_append]
  exact h.trans (List.suffix_append _ _)

theorem str_ne_empty_of_starts (s pre : String) (hpre : pre.data ≠ [])
    (h : strPrefixOf pre s) : s ≠ "" := by
  intro he
  subst he
  exact hpre (List.prefix_nil.mp h)

theorem formatStateFull_starts_tag (s : AgentState) :
    strPrefixOf "<agent_state>" (formatStateFull s) := by
  obtain ⟨rest, hdata⟩ := formatStateFull_starts s
  exact ⟨rest, hdata.symm⟩

theorem formatStateFull_ends_tag (s : AgentState) :
    strSuffixOf "</agent_state>" (formatStateFull s) := by
  obtain ⟨pre, hdata⟩ := formatStateFull_ends s
  exact ⟨pre, hdata.symm⟩

theorem jsSliceFromEnd_keeps_suffix (s : String) (n : Nat) (suf : String)
    (hlen : suf.length ≤ n) (hn : n ≤ s.length) (hsuf : strSuffixOf suf s) :
    strSuffixOf suf (jsSliceFromEnd s n) := by
  have htail : (jsSliceFromEnd s n).data <:+ s.data := jsSliceFromEnd_suffix s n
  have hlen2 : suf.data.length ≤ (jsSliceFromEnd s n).data.length := by
    have h3 := jsSliceFromEnd_length s n hn
    rw [str_length_data] at h3
    rw [← str_length_data, h3]
    exact hlen
  exact List.suffix_of_suffix_length_le hsuf htail hlen2

/-- The non-idle branch of formatStateContext, written out. -/
theorem formatStateContext_some (s : AgentState) (h : s.status ≠ .idle) :
    formatStateContext (some s) =
      (if (formatStateFull s).length > MAX_CONTEXT_CHARS then
        truncateContext (formatStateFull s) MAX_CONTEXT_CHARS
      else formatStateFull s) := by
  simp only [formatStateContext, if_neg h]

/-- Claim C10: for every state whose status is not idle, formatStateContext
returns non-empty text that begins with the <agent_state> tag and ends
with the </agent_state> tag — even with no plan, empty context and no
completed steps — so the orchestrator's "formatted context is empty,
inject nothing" branch never fires for such a state: injectPhase always
injects the formatted context. -/
theorem formatStateContext_nonIdle (s : AgentState) (h : s.status ≠ .idle) :
    formatStateContext (some s) ≠ "" ∧
    strPrefixOf "<agent_state>" (formatStateContext (some s)) ∧
    strSuffixOf "</agent_state>" (formatStateContext (some s)) ∧
    injectPhase (some s) = some (formatStateContext (some s)) := by
  have hstarts : strPrefixOf "<agent_state>" (formatStateContext (some s)) := by
    rw [formatStateContext_some s h]
    by_cases h2 : (formatStateFull s).length > MAX_CONTEXT_CHARS
    · rw [if_pos h2, truncateContext_eq _ (by rw [MAX_CONTEXT_CHARS] at h2; omega)]
      apply strPrefixOf_append
      apply strPrefixOf_append
      exact ⟨("\n  [Context truncated due to length]\n" : String).data, by decide⟩
    · rw [if_neg h2]
      exact formatStateFull_starts_tag s
  have hends : strSuffixOf "</agent_state>" (formatStateContext (some s)) := by
    rw [formatStateContext_some s h]
    by_cases h2 : (formatStateFull s).length > MAX_CONTEXT_CHARS
    · rw [if_pos h2, truncateContext_eq _ (by rw [MAX_CONTEXT_CHARS] at h2; omega)]
      apply strSuffixOf_append
      exact ⟨("\n" : String).data, by decide⟩
    · rw [if_neg h2]
      exact formatStateFull_ends_tag s
  have hne : formatStateContext (some s) ≠ "" :=
    str_ne_empty_of_starts _ _ (by decide) hstarts
  refine ⟨hne, hstarts, hends, ?_⟩
  simp only [injectPhase, if_neg h, if_neg hne]

/-- A minimal non-idle state: no plan, empty context, no completed steps. -/
def stateMinimal : AgentState :=
  { status := .executing, plan := none, currentStepIndex := some 0,
    completedSteps := some [], context := some [] }

/-- Claim C10, witness: on the minimal executing state the formatter
still produces the non-empty tagged block and the orchestrator injects it. -/
theorem formatStateContext_nonIdle_w :
    stateMinimal.status ≠ .idle ∧
    formatStateContext (some stateMinimal) ≠ "" ∧
    strPrefixOf "<agent_state>" (formatStateContext (some stateMinimal)) ∧
    strSuffixOf "</agent_state>" (formatStateContext (some stateMinimal)) ∧
    injectPhase (some stateMinimal) = some (formatStateContext (some stateMinimal)) := by
  have h := formatStateContext_nonIdle stateMinimal (by decide)
  exact ⟨by decide, h.1, h.2.1, h.2.2.1, h.2.2.2⟩

/-- Claim C2: the text formatStateContext returns never exceeds 16,000
characters; when the fully rendered text exceeds that ceiling the result
is exactly the truncation header (opening tag plus truncation marker),
followed by the 15,935-character suffix of the fully rendered text (the
most recent content, so truncation is tail-preserving), followed by the
closing tag; the retained suffix is a suffix of the over-long text and
still ends with the original closing </agent_state> tag. -/
theorem formatStateContext_bound (store : Option AgentState) :
    (formatStateContext store).length ≤ 16000 ∧
    (∀ s : AgentState, store = some s → s.status ≠ .idle →
      16000 < (formatStateFull s).length →
      formatStateContext store =
        "<agent_state>\n  [Context truncated due to length]\n" ++
          jsSliceFromEnd (formatStateFull s) 15935 ++ "\n</agent_state>" ∧
      (formatStateContext store).length = 16000 ∧
      (jsSliceFromEnd (formatStateFull s) 15935).length = 15935 ∧
      (jsSliceFromEnd (formatStateFull s) 15935).data <:+ (formatStateFull s).data ∧
      strSuffixOf "</agent_state>" (jsSliceFromEnd (formatStateFull s) 15935)) := by
  constructor
  · match store with
    | none => decide
    | some s =>
      by_cases h : s.status = .idle
      · simp [formatStateContext, h]
      · rw [formatStateContext_some s h]
        by_cases h2 : (formatStateFull s).length > MAX_CONTEXT_CHARS
        · rw [if_pos h2,
            truncateContext_length _ (by rw [MAX_CONTEXT_CHARS] at h2; omega)]
        · rw [if_neg h2]
          rw [MAX_CONTEXT_CHARS] at h2
          omega
  · rintro s rfl h hgt
    have hform : formatStateContext (some s) =
        truncateContext (formatStateFull s) MAX_CONTEXT_CHARS := by
      rw [formatStateContext_some s h,
        if_pos (by rw [MAX_CONTEXT_CHARS]; omega)]
    refine ⟨?_, ?_, jsSliceFromEnd_length _ _ (by omega),
      jsSliceFromEnd_suffix _ _, ?_⟩
    · rw [hform, truncateContext_eq _ hgt]
    · rw [hform, truncateContext_length _ hgt]
    · exact jsSliceFromEnd_keeps_suffix _ _ _ (by decide) (by omega)
        (formatStateFull_ends_tag s)

/-- A 16,100-character value. -/
def bigVal : String := List.asString (List.replicate 16100 'a')

/-- A state whose rendered context exceeds the 16,000-character ceiling. -/
def stateBig : AgentState :=
  { status := .executing, plan := none, currentStepIndex := some 0,
    completedSteps := some [], context := some [("findings", JVal.str bigVal)] }

theorem bigVal_length : bigVal.length = 16100 := by
  rw [bigVal, str_length_data, asString_data, List.length_replicate]

theorem stateBig_full_length : (formatStateFull stateBig).length = 16192 := by
  have h1 : buildParts stateBig =
      ["<agent_state>", "  <accumulated_context>",
       "    " ++ "findings" ++ ": " ++ JVal.render (JVal.str bigVal),
       "  </accumulated_context>", "</agent_state>"] := by
    rfl
  rw [formatStateFull, h1]
  show (("<agent_state>" ++ "\n" ++ ("  <accumulated_context>" ++ "\n" ++
    (("    " ++ "findings" ++ ": " ++ bigVal) ++ "\n" ++
    ("  </accumulated_context>" ++ "\n" ++ "</agent_state>")))).length) = 16192
  simp only [String.length_append, bigVal_length]
  decide

/-- Claim C2, witness: a state carrying a 16,100-character finding renders
to 16,192 characters and is truncated to exactly 16,000, tail-preserved. -/
theorem formatStateContext_bound_w :
    stateBig.status ≠ .idle ∧
    16000 < (formatStateFull stateBig).length ∧
    (formatStateContext (some stateBig) =
        "<agent_state>\n  [Context truncated due to length]\n" ++
          jsSliceFromEnd (formatStateFull stateBig) 15935 ++ "\n</agent_state>" ∧
      (formatStateContext (some stateBig)).length = 16000 ∧
      (jsSliceFromEnd (formatStateFull stateBig) 15935).length = 15935 ∧
      (jsSliceFromEnd (formatStateFull stateBig) 15935).data <:+
        (formatStateFull stateBig).data ∧
      strSuffixOf "</agent_state>" (jsSliceFromEnd (formatStateFull stateBig) 15935)) := by
  have hlen : 16000 < (formatStateFull stateBig).length := by
    rw [stateBig_full_length]
    omega
  exact ⟨by decide, hlen,
    (formatStateContext_bound (some stateBig)).2 stateBig rfl (by decide) hlen⟩

/-! ## Claim C1: completeCurrentStep -/

/-- Claim C1: for every stored state with a plan whose cursor is in range,
completeCurrentStep appends exactly one CompletedStep carrying the
current step's id and description, the supplied result and the supplied
timestamp; marks exactly that step done with that result while leaving
every other step unchanged; advances the cursor by one; and sets the
overall status to completed exactly when the pre-advance cursor was at
the last index, else executing. When the state is absent, has no plan,
or the cursor is out of range, it returns absent and persists nothing. -/
theorem completeCurrentStep_spec (s : AgentState) (p : AgentPlan) (r ts : String)
    (hplan : s.plan = some p)
    (hrange : s.currentStepIndex.getD 0 < p.steps.length) :
    (∃ st s2,
      p.steps.get? (s.currentStepIndex.getD 0) = some st ∧
      completeCurrentStep (some s) r ts = some s2 ∧
      completeCurrentStepStore (some s) r ts = some s2 ∧
      s2.completedSteps = some ((s.completedSteps.getD []) ++
        [{ stepId := st.id, description := st.description,
           result := r, timestamp := ts }]) ∧
      (∃ p2, s2.plan = some p2 ∧ p2.goal = p.goal ∧ p2.reasoning = p.reasoning ∧
        p2.steps.length = p.steps.length ∧
        p2.steps.get? (s.currentStepIndex.getD 0) =
          some { st with status := .done, result := some r } ∧
        ∀ j, j ≠ s.currentStepIndex.getD 0 → p2.steps.get? j = p.steps.get? j) ∧
      s2.currentStepIndex = some (s.currentStepIndex.getD 0 + 1) ∧
      (s2.status = if s.currentStepIndex.getD 0 = p.steps.length - 1
        then AgentStatus.completed else AgentStatus.executing) ∧
      s2.context = s.context) ∧
    (∀ r2 ts2, completeCurrentStep none r2 ts2 = none ∧
      completeCurrentStepStore none r2 ts2 = none) ∧
    (∀ (s0 : AgentState) (r2 ts2 : String), s0.plan = none →
      completeCurrentStep (some s0) r2 ts2 = none ∧
      completeCurrentStepStore (some s0) r2 ts2 = some s0) ∧
    (∀ (s0 : AgentState) (p0 : AgentPlan) (r2 ts2 : String), s0.plan = some p0 →
      p0.steps.length ≤ s0.currentStepIndex.getD 0 →
      completeCurrentStep (some s0) r2 ts2 = none ∧
      completeCurrentStepStore (some s0) r2 ts2 = some s0) := by
  have hnone : ∀ (s0 : AgentState) (r2 ts2 : String), s0.plan = none →
      completeCurrentStep (some s0) r2 ts2 = none := by
    intro s0 r2 ts2 h0
    simp only [completeCurrentStep, h0]
  have hoor : ∀ (s0 : AgentState) (p0 : AgentPlan) (r2 ts2 : String),
      s0.plan = some p0 → p0.steps.length ≤ s0.currentStepIndex.getD 0 →
      completeCurrentStep (some s0) r2 ts2 = none := by
    intro s0 p0 r2 ts2 h0 hlen
    have hg : p0.steps.get? (s0.currentStepIndex.getD 0) = none :=
      List.get?_eq_none.mpr hlen
    simp only [completeCurrentStep, h0, hg]
  refine ⟨?_, fun r2 ts2 => ⟨rfl, rfl⟩,
    fun s0 r2 ts2 h0 => ⟨hnone s0 r2 ts2 h0, ?_⟩,
    fun s0 p0 r2 ts2 h0 hlen => ⟨hoor s0 p0 r2 ts2 h0 hlen, ?_⟩⟩
  · have hst : p.steps.get? (s.currentStepIndex.getD 0) =
        some (p.steps.get ⟨s.currentStepIndex.getD 0, hrange⟩) :=
      List.get?_eq_get hrange
    have heq : completeCurrentStep (some s) r ts = some
        { s with
          plan := some
            { p with
              steps := mapWithIdxFrom
                (fun idx2 st2 =>
                  if idx2 = s.currentStepIndex.getD 0 then
                    { st2 with status := .done, result := some r }
                  else st2) 0 p.steps },
          completedSteps := some ((s.completedSteps.getD []) ++
            [{ stepId := (p.steps.get ⟨s.currentStepIndex.getD 0, hrange⟩).id,
               description :=
                 (p.steps.get ⟨s.currentStepIndex.getD 0, hrange⟩).description,
               result := r, timestamp := ts }]),
          currentStepIndex := some (s.currentStepIndex.getD 0 + 1),
          status := if p.steps.length - 1 ≤ s.currentStepIndex.getD 0 then
            AgentStatus.completed else AgentStatus.executing } := by
      simp only [completeCurrentStep, hplan, hst]
    refine ⟨p.steps.get ⟨s.currentStepIndex.getD 0, hrange⟩, _, hst, heq, ?_,
      rfl, ⟨_, rfl, rfl, rfl, length_mapWithIdxFrom _ _ _, ?_, ?_⟩, rfl, ?_, rfl⟩
    · rw [completeCurrentStepStore, heq]
      rfl
    · rw [get?_mapWithIdxFrom, Nat.zero_add, hst]
      simp
    · intro j hj
      rw [get?_mapWithIdxFrom, Nat.zero_add]
      cases hgj : p.steps.get? j with
      | none => rfl
      | some a => simp [hj]
    · have hiff : p.steps.length - 1 ≤ s.currentStepIndex.getD 0 ↔
          s.currentStepIndex.getD 0 = p.steps.length - 1 := by omega
      exact if_congr hiff rfl rfl
  · rw [completeCurrentStepStore, hnone s0 r2 ts2 h0]
    rfl
  · rw [completeCurrentStepStore, hoor s0 p0 r2 ts2 h0 hlen]
    rfl

/-- Scenario C plan: three steps, the last carrying the terminal tool. -/
def planScenC : AgentPlan :=
  { goal := "Research and summarize AI trends",
    steps :=
      [{ id := "s1", description := "Search for information",
         tool := none, status := .pending, result := none },
       { id := "s2", description := "Analyze findings",
         tool := none, status := .pending, result := none },
       { id := "s3", description := "Create summary",
         tool := some "finalAnswer", status := .pending, result := none }],
    reasoning := "Multi-step research task" }

/-- Scenario C state: plan of three steps, cursor at 0. -/
def stateScenC : AgentState :=
  { status := .executing, plan := some planScenC, currentStepIndex := some 0,
    completedSteps := some [], context := some [] }

/-- Scenario C expected result: cursor 1, one log entry, step 0 done,
status still executing. -/
def stateScenCAfter : AgentState :=
  { status := .executing,
    plan := some
      { goal := "Research and summarize AI trends",
        steps :=
          [{ id := "s1", description := "Search for information",
             tool := none, status := .done, result := some "found 5 articles" },
           { id := "s2", description := "Analyze findings",
             tool := none, status := .pending, result := none },
           { id := "s3", description := "Create summary",
             tool := some "finalAnswer", status := .pending, result := none }],
        reasoning := "Multi-step research task" },
    currentStepIndex := some 1,
    completedSteps := some
      [{ stepId := "s1", description := "Search for information",
         result := "found 5 articles", timestamp := "t0" }],
    context := some [] }

/-- Scenario D plan: a single step. -/
def planScenD : AgentPlan :=
  { goal := "Answer",
    steps := [{ id := "d1", description := "Answer the question",
                tool := some "finalAnswer", status := .pending, result := none }],
    reasoning := "single step" }

/-- Scenario D state: one-step plan, cursor at 0. -/
def stateScenD : AgentState :=
  { status := .executing, plan := some planScenD, currentStepIndex := some 0,
    completedSteps := some [], context := some [] }

/-- Scenario D expected result: cursor moves past the end and the overall
status becomes completed. -/
def stateScenDAfter : AgentState :=
  { status := .completed,
    plan := some
      { goal := "Answer",
        steps := [{ id := "d1", description := "Answer the question",
                    tool := some "finalAnswer", status := .done,
                    result := some "did it" }],
        reasoning := "single step" },
    currentStepIndex := some 1,
    completedSteps := some
      [{ stepId := "d1", description := "Answer the question",
         result := "did it", timestamp := "t1" }],
    context := some [] }

/-- Claim C1, witness: scenario C (three steps, cursor 0) advances to
cursor 1 with status executing, and scenario D (one step, cursor 0)
advances past the end with status completed. -/
theorem completeCurrentStep_spec_w :
    stateScenC.plan = some planScenC ∧
    stateScenC.currentStepIndex.getD 0 < planScenC.steps.length ∧
    completeCurrentStep (some stateScenC) "found 5 articles" "t0" =
      some stateScenCAfter ∧
    stateScenD.plan = some planScenD ∧
    stateScenD.currentStepIndex.getD 0 < planScenD.steps.length ∧
    completeCurrentStep (some stateScenD) "did it" "t1" = some stateScenDAfter := by
  have hC := completeCurrentStep_spec stateScenC planScenC "found 5 articles" "t0"
    rfl (by decide)
  have hD := completeCurrentStep_spec stateScenD planScenD "did it" "t1"
    rfl (by decide)
  exact ⟨rfl, by decide, by decide, rfl, by decide, by decide⟩

/-! ## Claims C7 and C5: the plan generator -/

/-- Claim C7: when the structured-generation call fails for any reason,
createPlan returns the deterministic fallback plan — exactly two pending
steps, the first describing analysis and gathering with no tool, the
second the comprehensive response with the terminal finalAnswer tool,
with the goal set to the task and a reasoning string explicitly noting
the fallback; moreover every plan createPlan returns has between 1 and
7 steps inclusive. -/
theorem createPlan_spec (task : String) (ids : Nat → String) :
    (∀ e : String,
      (createPlan task (.error e) ids).steps.length = 2 ∧
      (createPlan task (.error e) ids).goal = task ∧
      (createPlan task (.error e) ids).steps.get? 0 = some
        { id := ids 0, description := "Analyze the request and gather information",
          tool := none, status := .pending, result := none } ∧
      (createPlan task (.error e) ids).steps.get? 1 = some
        { id := ids 1, description := "Provide comprehensive response",
          tool := some "finalAnswer", status := .pending, result := none } ∧
      (createPlan task (.error e) ids).reasoning =
        "Fallback plan due to planning error") ∧
    (∀ gen : Except String RawPlanOutput,
      1 ≤ (createPlan task gen ids).steps.length ∧
      (createPlan task gen ids).steps.length ≤ 7) := by
  refine ⟨fun e => ⟨rfl, rfl, rfl, rfl, rfl⟩, fun gen => ?_⟩
  match gen with
  | .error e =>
    exact ⟨by norm_num [createPlan, createFallbackPlan],
      by norm_num [createPlan, createFallbackPlan]⟩
  | .ok raw =>
    by_cases hv : planSchemaValid raw = true
    · have hlen : (createPlan task (.ok raw) ids).steps.length = raw.steps.length := by
        simp only [createPlan, if_pos hv, convertToPlan]
        exact length_mapWithIdxFrom _ _ _
      rw [planSchemaValid, Bool.and_eq_true, Bool.and_eq_true] at hv
      rw [hlen]
      exact ⟨of_decide_eq_true hv.1.1, of_decide_eq_true hv.1.2⟩
    · simp only [createPlan, if_neg hv, createFallbackPlan]
      norm_num

/-- A deterministic id supply for concrete plans. -/
def idsEx : Nat → String := fun n => "id-" ++ toString n

/-- Claim C7, witness: a failed generation call on a concrete task yields
the two-step fallback plan with the fallback reasoning string. -/
theorem createPlan_spec_w :
    (createPlan "do the thing" (Except.error "timeout") idsEx).steps.length = 2 ∧
    (createPlan "do the thing" (Except.error "timeout") idsEx).goal = "do the thing" ∧
    (createPlan "do the thing" (Except.error "timeout") idsEx).reasoning =
      "Fallback plan due to planning error" := by
  have h := (createPlan_spec "do the thing" idsEx).1 "timeout"
  exact ⟨h.1, h.2.1, h.2.2.2.2⟩

/-- A schema-valid generation output naming the stale tool createDocument. -/
def rawStale : RawPlanOutput :=
  { goal := "Make a document",
    steps := [{ description := "Create the document", tool := some "createDocument" }],
    reasoning := "doc task" }

/-- Claim C5, the code evaluated at the failing input: PlanStepSchema's
enum still lists the stale names webExtract, createDocument and
updateDocument although only webSearch, fetchUrl, analyzeContent and
finalAnswer exist as tools, so a schema-valid generation output carrying
tool "createDocument" passes validation and convertToPlan propagates
that unknown name into the returned plan instead of treating it as
absent. -/
theorem createPlan_staleTool_bug :
    planSchemaValid rawStale = true ∧
    ((createPlan "make a document" (Except.ok rawStale) idsEx).steps.map
      PlanStep.tool) = [some "createDocument"] ∧
    agentToolNames.contains "createDocument" = false := by
  exact ⟨by decide, by decide, by decide⟩

/-! ## Claim C4: the orchestrator's round bookkeeping -/

/-- The store calls the claim predicts for one round: one addToContext
per tool result in order, then exactly one completeCurrentStep — with a
summary listing the invoked tool names — iff the round produced at
least one result. -/
def roundEvents (j : Nat) (r : StepRound) : List Event :=
  (r.toolResults.map (fun tr => Event.addCtx (ctxKey j tr.toolName) (summarize tr))) ++
  (if r.toolResults.length > 0 then
    [Event.completeStep
      ("Executed: " ++ joinComma (r.toolResults.map ToolResult.toolName))]
  else [])

theorem recordResults_events (i : Nat) (trs : List ToolResult) (s : AgentState) :
    ∃ s2, recordResults i trs (some s) =
      (trs.map (fun tr => Event.addCtx (ctxKey i tr.toolName) (summarize tr)),
        some s2) ∧
      s2.plan = s.plan := by
  induction trs generalizing s with
  | nil => exact ⟨s, rfl, rfl⟩
  | cons tr rest ih =>
    obtain ⟨s3, h3, hp3⟩ := ih
      { s with context := some (objInsert (s.context.getD [])
          (ctxKey i tr.toolName) (JVal.str (summarize tr))) }
    refine ⟨s3, ?_, hp3⟩
    simp only [recordResults, addToContext, applyStore, h3, List.map_cons]

theorem applyStore_complete_plan (s : AgentState) (r ts : String) :
    ∃ s2, applyStore (some s) (completeCurrentStep (some s) r ts) = some s2 ∧
      s2.plan.isSome = s.plan.isSome := by
  cases hp : s.plan with
  | none =>
    refine ⟨s, ?_, by rw [hp]⟩
    have h1 : completeCurrentStep (some s) r ts = none := by
      simp only [completeCurrentStep, hp]
    rw [h1]
    rfl
  | some p =>
    cases hg : p.steps.get? (s.currentStepIndex.getD 0) with
    | none =>
      refine ⟨s, ?_, by rw [hp]⟩
      have h1 : completeCurrentStep (some s) r ts = none := by
        simp only [completeCurrentStep, hp, hg]
      rw [h1]
      rfl
    | some st =>
      simp only [completeCurrentStep, hp, hg, applyStore]
      exact ⟨_, rfl, rfl⟩

theorem processRound_events (i : Nat) (round : StepRound) (s : AgentState)
    (ts : String) (hplan : s.plan.isSome = true) :
    ∃ s2, processRound i round (some s) ts = (roundEvents i round, some s2) ∧
      s2.plan.isSome = true := by
  by_cases hne : round.toolResults.length > 0
  · obtain ⟨s2, h2, hp2⟩ := recordResults_events i round.toolResults s
    have hp2s : s2.plan.isSome = true := by rw [hp2]; exact hplan
    obtain ⟨s3, h3, hp3⟩ := applyStore_complete_plan s2
      ("Executed: " ++ joinComma (round.toolResults.map ToolResult.toolName)) ts
    refine ⟨s3, ?_, by rw [hp3]; exact hp2s⟩
    rw [roundEvents, if_pos hne]
    simp only [processRound, if_pos hne, h2, hp2s, if_true, h3]
  · have h0 : round.toolResults = [] := by
      cases hr : round.toolResults with
      | nil => rfl
      | cons a l => rw [hr] at hne; exact absurd (by simp) hne
    refine ⟨s, ?_, hplan⟩
    rw [roundEvents, h0]
    simp [processRound, h0]

theorem processNewRounds_events (rounds : List StepRound) (i : Nat)
    (s : AgentState) (ts : String) (hplan : s.plan.isSome = true) :
    ∃ s2, processNewRounds i rounds (some s) ts =
      ((mapWithIdxFrom roundEvents i rounds).flatten, some s2) ∧
      s2.plan.isSome = true := by
  induction rounds generalizing i s with
  | nil => exact ⟨s, rfl, hplan⟩
  | cons r rest ih =>
    obtain ⟨s2, h2, hp2⟩ := processRound_events i r s ts hplan
    obtain ⟨s3, h3, hp3⟩ := ih (i + 1) s2 hp2
    refine ⟨s3, ?_, hp3⟩
    simp only [processNewRounds, h2, h3, mapWithIdxFrom, List.flatten_cons]

theorem roundEvents_filterComplete (j : Nat) (r : StepRound) :
    (roundEvents j r).filter Event.isCompleteStep =
      (if r.toolResults.length > 0 then
        [Event.completeStep
          ("Executed: " ++ joinComma (r.toolResults.map ToolResult.toolName))]
      else []) := by
  rw [roundEvents, List.filter_append]
  have h1 : (r.toolResults.map fun tr =>
      Event.addCtx (ctxKey j tr.toolName) (summarize tr)).filter
        Event.isCompleteStep = [] := by
    rw [List.filter_eq_nil_iff]
    intro a ha
    obtain ⟨tr, _, rfl⟩ := List.mem_map.mp ha
    simp [Event.isCompleteStep]
  rw [h1, List.nil_append]
  by_cases hc : r.toolResults.length > 0
  · simp only [if_pos hc]
    rfl
  · simp only [if_neg hc]
    rfl

theorem roundEvents_addCtx (j : Nat) (r : StepRound) :
    (roundEvents j r).filterMap Event.addCtxInfo =
      r.toolResults.map (fun tr => (ctxKey j tr.toolName, summarize tr)) := by
  rw [roundEvents, List.filterMap_append]
  have h2 : (if r.toolResults.length > 0 then
      [Event.completeStep
        ("Executed: " ++ joinComma (r.toolResults.map ToolResult.toolName))]
      else []).filterMap Event.addCtxInfo = [] := by
    by_cases hc : r.toolResults.length > 0
    · rw [if_pos hc]
      rfl
    · rw [if_neg hc]
      rfl
  rw [h2, List.append_nil]
  induction r.toolResults with
  | nil => rfl
  | cons tr rest ih => simp [List.filterMap_cons, Event.addCtxInfo, ih]

theorem joined_filterComplete (i : Nat) (rounds : List StepRound) :
    (((mapWithIdxFrom roundEvents i rounds).flatten).filter Event.isCompleteStep).length =
      (rounds.filter (fun r => r.toolResults.length > 0)).length := by
  induction rounds generalizing i with
  | nil => rfl
  | cons r rest ih =>
    simp only [mapWithIdxFrom, List.flatten_cons, List.filter_append, List.length_append,
      roundEvents_filterComplete, ih (i + 1), List.filter_cons]
    by_cases hc : r.toolResults.length > 0
    · simp [hc]
      omega
    · simp [hc]

theorem joined_addCtx (i : Nat) (rounds : List StepRound) :
    ((mapWithIdxFrom roundEvents i rounds).flatten).filterMap Event.addCtxInfo =
      (mapWithIdxFrom (fun j r => r.toolResults.map
        (fun tr => (ctxKey j tr.toolName, summarize tr))) i rounds).flatten := by
  induction rounds generalizing i with
  | nil => rfl
  | cons r rest ih =>
    simp only [mapWithIdxFrom, List.flatten_cons, List.filterMap_append,
      roundEvents_addCtx, ih (i + 1)]

/-- A single round carrying one action-result. -/
def roundOneResult : StepRound :=
  { toolResults :=
      [{ toolName := "webSearch", result := some (JVal.str "results"),
         selfSerialized := "sr" }] }

/-- A stored state without a plan. -/
def statePlanless : AgentState :=
  { status := .executing, plan := none, currentStepIndex := some 0,
    completedSteps := some [], context := some [] }

/-- Claim C4, counterexample to the claim as stated: a round with one
action-result, processed over a stored state without a plan, triggers no
completeCurrentStep call at all — the claim's "exactly one
completeCurrentStep call per round with at least one action-result"
fails when the loaded state has no plan. -/
theorem prepareStep_planless_cex :
    roundOneResult.toolResults.length = 1 ∧
    (((prepareStepFold [roundOneResult] 0 (some statePlanless) "t").1).filter
      Event.isCompleteStep).length = 0 := by
  exact ⟨by decide, by decide⟩

/-- Claim C4 (amended): in an orchestrator iteration with a bound
conversation whose stored state has a plan, every not-yet-processed
round is folded into state: its store-call trace is exactly, per round
in order, one addToContext per action-result — keyed by round index and
action name, valued with the 500-character summary — followed by
exactly one completeCurrentStep for the round iff it produced at least
one action-result (never once per individual result; when the loaded
state has no plan the completeCurrentStep call is skipped); afterwards
the last-processed counter equals the new round count, so no round is
reprocessed or skipped. -/
theorem prepareStep_spec (steps : List StepRound) (lastN : Nat) (s : AgentState)
    (ts : String) (hplan : s.plan.isSome = true) (hle : lastN ≤ steps.length) :
    ∃ events store2,
      prepareStepFold steps lastN (some s) ts = (events, steps.length, store2) ∧
      events = (mapWithIdxFrom roundEvents lastN (steps.drop lastN)).flatten ∧
      (events.filter Event.isCompleteStep).length =
        ((steps.drop lastN).filter (fun r => r.toolResults.length > 0)).length ∧
      events.filterMap Event.addCtxInfo =
        (mapWithIdxFrom (fun j r => r.toolResults.map
          (fun tr => (ctxKey j tr.toolName, summarize tr))) lastN
          (steps.drop lastN)).flatten := by
  by_cases hgt : steps.length > lastN
  · obtain ⟨s2, h2, _⟩ := processNewRounds_events (steps.drop lastN) lastN s ts hplan
    refine ⟨_, some s2, ?_, rfl, joined_filterComplete lastN _, joined_addCtx lastN _⟩
    simp only [prepareStepFold, if_pos hgt, h2]
  · have heq : lastN = steps.length := by omega
    refine ⟨[], some s, ?_, ?_, ?_, ?_⟩
    · simp only [prepareStepFold, if_neg hgt]
      rw [heq]
    · rw [heq, List.drop_length]
      rfl
    · rw [heq, List.drop_length]
      rfl
    · rw [heq, List.drop_length]
      rfl

/-- A round with two action-results. -/
def roundTwoResults : StepRound :=
  { toolResults :=
      [{ toolName := "webSearch", result := some (JVal.str "ten results"),
         selfSerialized := "sr1" },
       { toolName := "fetchUrl", result := some (JVal.nonstr "[1,2]"),
         selfSerialized := "sr2" }] }

/-- A round with no action-results. -/
def roundNoResults : StepRound := { toolResults := [] }

/-- A stored state carrying a plan, for the orchestrator witness. -/
def stateC4 : AgentState :=
  { status := .executing, plan := some planScenD, currentStepIndex := some 0,
    completedSteps := some [], context := some [] }

/-- Claim C4, witness: two fresh rounds over a state with a plan — one
round with two action-results, one with none — produce exactly one
completeCurrentStep call in total (once per qualifying round, not once
per result) and advance the counter to the new round count 2. -/
theorem prepareStep_spec_w :
    stateC4.plan.isSome = true ∧
    (0 : Nat) ≤ ([roundTwoResults, roundNoResults] : List StepRound).length ∧
    roundTwoResults.toolResults.length = 2 ∧
    (((prepareStepFold [roundTwoResults, roundNoResults] 0 (some stateC4) "t").1).filter
      Event.isCompleteStep).length = 1 ∧
    (prepareStepFold [roundTwoResults, roundNoResults] 0 (some stateC4) "t").2.1 = 2 := by
  have h := prepareStep_spec [roundTwoResults, roundNoResults] 0 stateC4 "t"
    rfl (by omega)
  exact ⟨rfl, by omega, by decide, by decide, by decide⟩

/-! ## Claim C3: the stop policy -/

theorem hasToolCall_concat (name : String) (acc : List LoopStep) (g : LoopStep) :
    hasToolCall name (acc ++ [g]) = g.toolCalls.contains name := by
  simp only [hasToolCall, List.getLast?_concat]

theorem runLoop_tools (m : Nat) (gen : Nat → LoopStep) :
    ∀ fuel acc, acc.length + fuel = m →
    (∀ st ∈ acc, roundFinal st = false) →
    0 < fuel →
    ∃ rounds,
      runLoop (fun event => hasToolCall "finalAnswer" event || stepCountIs m event)
        gen fuel acc = some rounds ∧
      acc.length < rounds.length ∧ rounds.length ≤ m ∧
      (∀ i st, i + 1 < rounds.length → rounds.get? i = some st →
        roundFinal st = false) ∧
      (rounds.length < m → ∃ st, rounds.getLast? = some st ∧ roundFinal st = true) := by
  intro fuel
  induction fuel with
  | zero => intro acc _ _ h3; exact absurd h3 (Nat.lt_irrefl 0)
  | succ f ih =>
    intro acc hlen hacc _
    have hlen2 : (acc ++ [gen acc.length]).length = acc.length + 1 := by simp
    have hlast : (acc ++ [gen acc.length]).getLast? = some (gen acc.length) :=
      List.getLast?_concat _
    have hcall : hasToolCall "finalAnswer" (acc ++ [gen acc.length]) =
        roundFinal (gen acc.length) := by
      rw [hasToolCall_concat]
      rfl
    have hprev : ∀ i st, i + 1 < (acc ++ [gen acc.length]).length →
        (acc ++ [gen acc.length]).get? i = some st → roundFinal st = false := by
      intro i st hi hg
      rw [hlen2] at hi
      rw [List.get?_append (by omega)] at hg
      exact hacc st (List.get?_mem hg)
    by_cases hfin : roundFinal (gen acc.length) = true
    · have hstop : (hasToolCall "finalAnswer" (acc ++ [gen acc.length]) ||
          stepCountIs m (acc ++ [gen acc.length])) = true := by
        rw [hcall, hfin, Bool.true_or]
      refine ⟨acc ++ [gen acc.length], ?_, by simp, by rw [hlen2]; omega, hprev,
        fun _ => ⟨gen acc.length, hlast, hfin⟩⟩
      simp only [runLoop, hstop, if_true]
    · have hfin2 : roundFinal (gen acc.length) = false := by
        cases hb : roundFinal (gen acc.length) with
        | true => exact absurd hb hfin
        | false => rfl
      by_cases hm2 : m ≤ acc.length + 1
      · have hstop : (hasToolCall "finalAnswer" (acc ++ [gen acc.length]) ||
            stepCountIs m (acc ++ [gen acc.length])) = true := by
          rw [Bool.or_eq_true, stepCountIs, hlen2]
          exact Or.inr (decide_eq_true hm2)
        refine ⟨acc ++ [gen acc.length], ?_, by simp, by rw [hlen2]; omega, hprev,
          fun hlt => absurd hlt (by rw [hlen2]; omega)⟩
        simp only [runLoop, hstop, if_true]
      · have hstop : (hasToolCall "finalAnswer" (acc ++ [gen acc.length]) ||
            stepCountIs m (acc ++ [gen acc.length])) = false := by
          rw [hcall, hfin2, Bool.false_or, stepCountIs, hlen2]
          exact decide_eq_false hm2
        have hinv : ∀ st ∈ acc ++ [gen acc.length], roundFinal st = false := by
          intro st hst
          rcases List.mem_append.mp hst with hmem | hmem
          · exact hacc st hmem
          · rw [List.mem_singleton.mp hmem]
            exact hfin2
        obtain ⟨rounds, h1, h2, h3, h4, h5⟩ := ih (acc ++ [gen acc.length])
          (by rw [hlen2]; omega) hinv (by omega)
        refine ⟨rounds, ?_, by rw [hlen2] at h2; omega, h3, h4, h5⟩
        simp only [runLoop, hstop, Bool.false_eq_true, if_false]
        exact h1

theorem runLoop_reasoning (m : Nat) (gen : Nat → LoopStep) :
    ∀ fuel acc, acc.length + fuel = m → 0 < fuel →
    ∃ rounds, runLoop (stepCountIs m) gen fuel acc = some rounds ∧
      rounds.length = m := by
  intro fuel
  induction fuel with
  | zero => intro acc _ h2; exact absurd h2 (Nat.lt_irrefl 0)
  | succ f ih =>
    intro acc hlen _
    have hlen2 : (acc ++ [gen acc.length]).length = acc.length + 1 := by simp
    by_cases hm2 : m ≤ acc.length + 1
    · have hstop : stepCountIs m (acc ++ [gen acc.length]) = true := by
        rw [stepCountIs, hlen2]
        exact decide_eq_true hm2
      refine ⟨acc ++ [gen acc.length], ?_, by rw [hlen2]; omega⟩
      simp only [runLoop, hstop, if_true]
    · have hstop : stepCountIs m (acc ++ [gen acc.length]) = false := by
        rw [stepCountIs, hlen2]
        exact decide_eq_false hm2
      obtain ⟨rounds, h1, h2⟩ := ih (acc ++ [gen acc.length])
        (by rw [hlen2]; omega) (by omega)
      refine ⟨rounds, ?_, h2⟩
      simp only [runLoop, hstop, Bool.false_eq_true, if_false]
      exact h1

/-- Claim C3: with tools offered (non-reasoning model), the loop
terminates, runs at most maxSteps rounds, no round before the last
calls the terminal finalAnswer action, and if it stopped before the
round bound then the last round called finalAnswer — so the loop stops
at the bound or at the first finalAnswer round, whichever comes first;
maxSteps defaults to 5; a reasoning-model conversation is offered no
tools (toolChoice "none") and always runs exactly maxSteps rounds,
regardless of what the rounds call. -/
theorem createAgent_stop_spec (gen : Nat → LoopStep) (m : Nat) (hm : 0 < m) :
    ({} : CreateAgentOptions).maxSteps = 5 ∧
    ({} : CreateAgentOptions).isReasoningModel = false ∧
    (createAgent { isReasoningModel := false, maxSteps := m }).offersTools = true ∧
    (∃ rounds,
      runLoop (createAgent { isReasoningModel := false, maxSteps := m }).stopWhen
        gen m [] = some rounds ∧
      0 < rounds.length ∧ rounds.length ≤ m ∧
      (∀ i st, i + 1 < rounds.length → rounds.get? i = some st →
        roundFinal st = false) ∧
      (rounds.length < m → ∃ st, rounds.getLast? = some st ∧
        roundFinal st = true)) ∧
    (createAgent { isReasoningModel := true, maxSteps := m }).offersTools = false ∧
    (createAgent { isReasoningModel := true, maxSteps := m }).toolChoice = "none" ∧
    (∃ rounds,
      runLoop (createAgent { isReasoningModel := true, maxSteps := m }).stopWhen
        gen m [] = some rounds ∧
      rounds.length = m) := by
  refine ⟨rfl, rfl, rfl, ?_, rfl, rfl, ?_⟩
  · exact runLoop_tools m gen m [] (by simp) (by simp) hm
  · exact runLoop_reasoning m gen m [] (by simp) hm

/-- A reasoning engine that calls the terminal action in its second
round and a search tool otherwise. -/
def genW : Nat → LoopStep :=
  fun n => if n = 1 then { toolCalls := ["finalAnswer"] }
    else { toolCalls := ["webSearch"] }

/-- Claim C3, witness: with the default bound of 5, the tools agent stops
right after round 2 — the first round calling finalAnswer — while the
reasoning agent ignores the calls and runs all 5 rounds. -/
theorem createAgent_stop_spec_w :
    (0 : Nat) < 5 ∧
    runLoop (createAgent { isReasoningModel := false, maxSteps := 5 }).stopWhen
      genW 5 [] =
      some [{ toolCalls := ["webSearch"] }, { toolCalls := ["finalAnswer"] }] ∧
    runLoop (createAgent { isReasoningModel := true, maxSteps := 5 }).stopWhen
      genW 5 [] =
      some [{ toolCalls := ["webSearch"] }, { toolCalls := ["finalAnswer"] },
            { toolCalls := ["webSearch"] }, { toolCalls := ["webSearch"] },
            { toolCalls := ["webSearch"] }] := by
  have h := createAgent_stop_spec genW 5 (by omega)
  exact ⟨by omega, by decide, by decide⟩

end Chatbot
